import Mathlib

/-!
Verification of the gas-spreadsheet-orm repository against its design
specification.  The TypeScript sources (src/example.ts QueryEngine,
src/table-model.ts TableModel, src/client.ts SpreadsheetClient,
src/SpreadSheetMapper.ts) are shallowly embedded below: JavaScript cell
values become the inductive `Value`, records and condition objects become
association lists (JavaScript object key order is significant and is
preserved by the list order), and every operation is a total Lean
function mirroring the source line by line.
-/

namespace GasOrm

/-- JavaScript runtime values that can appear in a cell or a record field.
Numbers are modelled as integers (the claims only exercise integral values);
`vdate` carries the epoch-milliseconds instant of a `Date` object. -/
inductive Value where
  | vundef : Value
  | vnull : Value
  | vbool : Bool → Value
  | vnum : Int → Value
  | vstr : String → Value
  | vdate : Int → Value
deriving DecidableEq, Repr

namespace Value

/-- JavaScript strict equality `===`.  Primitives compare by value;
`Date` objects are reference types, and two separately constructed objects
are never strictly equal — the embedding does not track aliasing, so
object `===` object is modelled as `false` (the theorems below stay away
from the aliased-object corner, record aliasing itself is modelled
explicitly for claim C5 by the heap model further down). -/
def jsStrictEq : Value → Value → Bool
  | vundef, vundef => true
  | vnull, vnull => true
  | vbool a, vbool b => a == b
  | vnum a, vnum b => a == b
  | vstr a, vstr b => a == b
  | _, _ => false

/-- JavaScript loose `value == null`, true exactly for `null` and `undefined`. -/
def isLooseNull : Value → Bool
  | vundef => true
  | vnull => true
  | _ => false

/-- The guard `typeof value === 'number' || value instanceof Date` of the
ordering-operator block in `QueryEngine.evaluateCondition`. -/
def isNumOrDate : Value → Bool
  | vnum _ => true
  | vdate _ => true
  | _ => false

/-- The guard `typeof value === 'string'` of the text-operator block. -/
def isStr : Value → Bool
  | vstr _ => true
  | _ => false

/-- Numeric coercion used by the JavaScript relational operators on the
number/Date values admitted by the guards (`Date` coerces to its instant). -/
def valueOfNum : Value → Int
  | vnum n => n
  | vdate t => t
  | _ => 0

/-- `value < other` for two values that both passed `isNumOrDate`. -/
def jsLt (a b : Value) : Bool := valueOfNum a < valueOfNum b

def jsLe (a b : Value) : Bool := valueOfNum a ≤ valueOfNum b

def jsGt (a b : Value) : Bool := valueOfNum a > valueOfNum b

def jsGe (a b : Value) : Bool := valueOfNum a ≥ valueOfNum b

/-- A value is a JavaScript primitive: strict equality on it is value
equality, in particular `v === v` holds (false for `Date` objects). -/
def isPrimitive : Value → Bool
  | vdate _ => false
  | _ => true

end Value

open Value

/-- A JavaScript record object: ordered association list of own properties.
Claims only exercise primitive-valued record fields, so field values are
`Value`. -/
abbrev JSObj := List (String × Value)

/-- Property read `o[k]`: an absent property reads as `undefined`. -/
def getKey (o : JSObj) (k : String) : Value :=
  match o.find? (fun p => p.1 == k) with
  | some p => p.2
  | none => vundef

/-- The JavaScript `'k' in o` test (property presence, even if the stored
value is `undefined`). -/
def hasKey (o : JSObj) (k : String) : Bool :=
  o.any (fun p => p.1 == k)

/-- Property write `o[k] = v`: overwrites in place if the key exists,
otherwise appends the new property (JavaScript object key-order semantics). -/
def setKey : JSObj → String → Value → JSObj
  | [], k, v => [(k, v)]
  | (k', v') :: rest, k, v =>
      if k' == k then (k, v) :: rest else (k', v') :: setKey rest k v

/-- `sub.isPrefixOf l` on character lists (used for the substring test of
`String.prototype.includes`). -/
def charsPrefix : List Char → List Char → Bool
  | [], _ => true
  | _ :: _, [] => false
  | a :: as, b :: bs => a == b && charsPrefix as bs

/-- `sub` occurs as a contiguous run inside `l`. -/
def charsInfix (sub : List Char) : List Char → Bool
  | [] => sub.isEmpty
  | c :: rest => charsPrefix sub (c :: rest) || charsInfix sub rest

/-- `String.prototype.includes` (substring test). -/
def strIncludes (s sub : String) : Bool :=
  charsInfix sub.toList s.toList

/-- An operand stored under an operator key of a structured predicate
object: either a primitive value or a JavaScript array (the `in` / `notIn`
operand shape). -/
inductive CondOperand where
  | prim : Value → CondOperand
  | arr : List Value → CondOperand
deriving DecidableEq, Repr

namespace CondOperand

/-- `value === operand` (an array operand is an object reference, never
strictly equal to a field value). -/
def jsStrictEqTo (v : Value) : CondOperand → Bool
  | prim w => jsStrictEq v w
  | arr _ => false

/-- `Array.isArray(operand)`. -/
def isArray : CondOperand → Bool
  | arr _ => true
  | prim _ => false

/-- `operand.includes(v)` (SameValueZero coincides with strict equality on
the values modelled here). -/
def includes (o : CondOperand) (v : Value) : Bool :=
  match o with
  | arr vs => vs.any (fun x => jsStrictEq x v)
  | prim _ => false

/-- `typeof operand === 'number' || operand instanceof Date`. -/
def isNumOrDate : CondOperand → Bool
  | prim w => w.isNumOrDate
  | arr _ => false

/-- `typeof operand === 'string'`. -/
def isStr : CondOperand → Bool
  | prim (vstr _) => true
  | _ => false

def asValue : CondOperand → Value
  | prim w => w
  | arr _ => vundef

end CondOperand

/-- A structured predicate object (the second argument of
`QueryEngine.evaluateCondition`): ordered association list of operator
keys. -/
abbrev CondObj := List (String × CondOperand)

/-- `'k' in condition`. -/
def hasOp (c : CondObj) (k : String) : Bool :=
  c.any (fun p => p.1 == k)

/-- `condition[k]` (an absent key reads as `undefined`). -/
def getOp (c : CondObj) (k : String) : CondOperand :=
  match c.find? (fun p => p.1 == k) with
  | some p => p.2
  | none => .prim vundef

/-!
## Query Engine (src/example.ts, class QueryEngine)

`evaluateCondition` is the body of `QueryEngine.evaluateCondition`
(example.ts lines 127-174).  The TypeScript is a sequence of early-return
`if` statements; the embedding flattens the two type-guarded blocks
(lines 145-158 for number/Date ordering operators, lines 161-171 for
string text operators) into the same early-return chain, which is
control-flow equivalent because every inner `if` returns.
When no branch fires the function returns `true` (line 173).
-/

def evaluateCondition (value : Value) (c : CondObj) : Bool :=
  if hasOp c "equals" then (getOp c "equals").jsStrictEqTo value
  else if hasOp c "not" then !((getOp c "not").jsStrictEqTo value)
  else if hasOp c "in" && (getOp c "in").isArray then (getOp c "in").includes value
  else if hasOp c "notIn" && (getOp c "notIn").isArray then !((getOp c "notIn").includes value)
  else if value.isNumOrDate && hasOp c "lt" && (getOp c "lt").isNumOrDate then
    jsLt value (getOp c "lt").asValue
  else if value.isNumOrDate && hasOp c "lte" && (getOp c "lte").isNumOrDate then
    jsLe value (getOp c "lte").asValue
  else if value.isNumOrDate && hasOp c "gt" && (getOp c "gt").isNumOrDate then
    jsGt value (getOp c "gt").asValue
  else if value.isNumOrDate && hasOp c "gte" && (getOp c "gte").isNumOrDate then
    jsGe value (getOp c "gte").asValue
  else if value.isStr && hasOp c "contains" && (getOp c "contains").isStr then
    strIncludes (match value with | vstr s => s | _ => "") (match (getOp c "contains").asValue with | vstr s => s | _ => "")
  else if value.isStr && hasOp c "startsWith" && (getOp c "startsWith").isStr then
    String.startsWith (match value with | vstr s => s | _ => "") (match (getOp c "startsWith").asValue with | vstr s => s | _ => "")
  else if value.isStr && hasOp c "endsWith" && (getOp c "endsWith").isStr then
    String.endsWith (match value with | vstr s => s | _ => "") (match (getOp c "endsWith").asValue with | vstr s => s | _ => "")
  else
    true

/-- A per-field condition inside a where object: either a bare literal
(primitive or null/undefined, handled by strict equality at example.ts
lines 113-115 and 121-123) or a structured predicate object (line 117-119).
JavaScript would also route `Date` or array literals into the object branch;
such conditions are represented as `pred` objects here. -/
inductive Cond where
  | lit : Value → Cond
  | pred : CondObj → Cond
deriving DecidableEq, Repr

/-- A where object: field name to condition (`WhereCondition<T>`). -/
abbrev WhereObj := List (String × Cond)

/-- One field of `QueryEngine.matchesWhere` (example.ts lines 110-124):
null/undefined and primitive literals both reduce to `value === condition`. -/
def matchesField (value : Value) : Cond → Bool
  | .lit w => jsStrictEq value w
  | .pred c => evaluateCondition value c

/-- `QueryEngine.matchesWhere` (example.ts lines 109-125): conjunction over
the fields present in the where object. -/
def matchesWhere (item : JSObj) (w : WhereObj) : Bool :=
  w.all (fun p => matchesField (getKey item p.1) p.2)

/-- `QueryEngine.filter` (example.ts lines 177-180). -/
def qfilter (data : List JSObj) (w : Option WhereObj) : List JSObj :=
  match w with
  | none => data
  | some w => data.filter (fun item => matchesWhere item w)

/-- `QueryEngine.findFirst` (example.ts lines 226-228). -/
def qfindFirst (data : List JSObj) (w : WhereObj) : Option JSObj :=
  data.find? (fun item => matchesWhere item w)

/-- `Array.prototype.slice(start)`: a negative start counts from the end,
clamped to the array bounds. -/
def jsSliceFrom (l : List α) (s : Int) : List α :=
  l.drop (if s < 0 then (max ((l.length : Int) + s) 0).toNat else s.toNat)

/-- `Array.prototype.slice(0, end)`: a negative end counts from the end,
clamped to the array bounds. -/
def jsSliceUpTo (l : List α) (e : Int) : List α :=
  l.take (if e < 0 then (max ((l.length : Int) + e) 0).toNat else e.toNat)

/-- `QueryEngine.paginate` (example.ts lines 218-223).  The guards
`if (skip)` and `if (take)` are JavaScript truthiness tests: an absent
argument or the number `0` skips the corresponding slice. -/
def paginate (data : List JSObj) (take skip : Option Int) : List JSObj :=
  let result := data
  let result := match skip with
    | some s => if s ≠ 0 then jsSliceFrom result s else result
    | none => result
  match take with
  | some t => if t ≠ 0 then jsSliceUpTo result t else result
  | none => result

/-!
## Specification-side semantics of the condition language

Two definitions written from the specification's words, to be compared
with `evaluateCondition` (which is written from the source):
`conjAllOpsSpec` is the AND-over-every-operator-key, fail-closed semantics
asserted by claim C1; `evalConditionPriority` is the
first-applicable-operator priority semantics asserted by claim C10.
-/

/-- Modelled from the spec (claim C1 wording): the result of one operator
key, where an ordering operator applied to a value that is not
numeric/temporal, and a text operator applied to a non-string value,
evaluate to a non-match (fail closed).  A key outside the operator
language contributes `true` to the conjunction. -/
def evalOneOpSpec (value : Value) (k : String) (o : CondOperand) : Bool :=
  if k = "equals" then o.jsStrictEqTo value
  else if k = "not" then !(o.jsStrictEqTo value)
  else if k = "in" then o.includes value
  else if k = "notIn" then !(o.includes value)
  else if k = "lt" then value.isNumOrDate && o.isNumOrDate && jsLt value o.asValue
  else if k = "lte" then value.isNumOrDate && o.isNumOrDate && jsLe value o.asValue
  else if k = "gt" then value.isNumOrDate && o.isNumOrDate && jsGt value o.asValue
  else if k = "gte" then value.isNumOrDate && o.isNumOrDate && jsGe value o.asValue
  else if k = "contains" then value.isStr && o.isStr &&
    strIncludes (match value with | vstr s => s | _ => "") (match o.asValue with | vstr s => s | _ => "")
  else if k = "startsWith" then value.isStr && o.isStr &&
    String.startsWith (match value with | vstr s => s | _ => "") (match o.asValue with | vstr s => s | _ => "")
  else if k = "endsWith" then value.isStr && o.isStr &&
    String.endsWith (match value with | vstr s => s | _ => "") (match o.asValue with | vstr s => s | _ => "")
  else true

/-- Modelled from the spec (claim C1 wording): "evaluate every operator key
present in it and AND the results". -/
def conjAllOpsSpec (value : Value) (c : CondObj) : Bool :=
  c.all (fun p => evalOneOpSpec value p.1 p.2)

/-- Modelled from the claim C10 wording: the fixed priority list of
(applicability-guard, operator-result) pairs, in the order
equals, not, in, notIn, lt, lte, gt, gte, contains, startsWith, endsWith. -/
def opRules (value : Value) (c : CondObj) : List (Bool × Bool) :=
  [ (hasOp c "equals", (getOp c "equals").jsStrictEqTo value),
    (hasOp c "not", !((getOp c "not").jsStrictEqTo value)),
    (hasOp c "in" && (getOp c "in").isArray, (getOp c "in").includes value),
    (hasOp c "notIn" && (getOp c "notIn").isArray, !((getOp c "notIn").includes value)),
    (value.isNumOrDate && hasOp c "lt" && (getOp c "lt").isNumOrDate,
      jsLt value (getOp c "lt").asValue),
    (value.isNumOrDate && hasOp c "lte" && (getOp c "lte").isNumOrDate,
      jsLe value (getOp c "lte").asValue),
    (value.isNumOrDate && hasOp c "gt" && (getOp c "gt").isNumOrDate,
      jsGt value (getOp c "gt").asValue),
    (value.isNumOrDate && hasOp c "gte" && (getOp c "gte").isNumOrDate,
      jsGe value (getOp c "gte").asValue),
    (value.isStr && hasOp c "contains" && (getOp c "contains").isStr,
      strIncludes (match value with | vstr s => s | _ => "") (match (getOp c "contains").asValue with | vstr s => s | _ => "")),
    (value.isStr && hasOp c "startsWith" && (getOp c "startsWith").isStr,
      String.startsWith (match value with | vstr s => s | _ => "") (match (getOp c "startsWith").asValue with | vstr s => s | _ => "")),
    (value.isStr && hasOp c "endsWith" && (getOp c "endsWith").isStr,
      String.endsWith (match value with | vstr s => s | _ => "") (match (getOp c "endsWith").asValue with | vstr s => s | _ => "")) ]

/-- The first rule whose applicability guard holds decides the result;
with no applicable rule the predicate matches. -/
def firstApplicable : List (Bool × Bool) → Bool
  | [] => true
  | (g, r) :: rest => if g then r else firstApplicable rest

/-- Modelled from the claim C10 wording: first-applicable-operator
semantics over the fixed priority order. -/
def evalConditionPriority (value : Value) (c : CondObj) : Bool :=
  firstApplicable (opRules value c)

/-- C1, counterexample.  The claim says the field-match result is the
conjunction over every operator key, with type-mismatched ordering/text
operators failing closed.  The code disagrees twice at concrete inputs:
an `lt` predicate on the string value "abc" evaluates to a match (the code
falls through to `return true`, i.e. fails open), and a predicate
`{equals: 1, lt: 0}` on the value `1` matches even though the `lt`
conjunct is false (the first recognized operator alone decides). -/
theorem c1_counterexample :
    evaluateCondition (vstr "abc") [("lt", .prim (vnum 5))] = true
    ∧ conjAllOpsSpec (vstr "abc") [("lt", .prim (vnum 5))] = false
    ∧ evaluateCondition (vnum 1) [("equals", .prim (vnum 1)), ("lt", .prim (vnum 0))] = true
    ∧ conjAllOpsSpec (vnum 1) [("equals", .prim (vnum 1)), ("lt", .prim (vnum 0))] = false := by
  decide

/-- C1 (corrected): a structured predicate none of whose equality-category
operators is applicable, applied to a value that is neither
numeric/temporal nor a string (so every ordering and text operator is
type-mismatched), evaluates to a match: type-mismatched operators are
skipped and the evaluator falls through to `true` — it fails open, not
closed (and, per C10, evaluation stops at the first applicable operator
instead of AND-ing all keys). -/
theorem c1_amended_fails_open (v : Value) (c : CondObj)
    (hnum : v.isNumOrDate = false) (hstr : v.isStr = false)
    (he : hasOp c "equals" = false) (hn : hasOp c "not" = false)
    (hi : (hasOp c "in" && (getOp c "in").isArray) = false)
    (hni : (hasOp c "notIn" && (getOp c "notIn").isArray) = false) :
    evaluateCondition v c = true := by
  simp [evaluateCondition, he, hn, hi, hni, hnum, hstr]

/-- C1 witness: a boolean value against an `{lt: 5, contains: "x"}`
predicate — both operators are type-mismatched, the predicate matches. -/
theorem c1_amended_fails_open_w :
    evaluateCondition (vbool true) [("lt", .prim (vnum 5)), ("contains", .prim (vstr "x"))] = true :=
  c1_amended_fails_open (vbool true) [("lt", .prim (vnum 5)), ("contains", .prim (vstr "x"))]
    (by decide) (by decide) (by decide) (by decide) (by decide) (by decide)

/-- C10 (confirmed): `evaluateCondition` implements the
first-applicable-operator priority semantics — the first operator key in
the fixed order equals, not, in, notIn, lt, lte, gt, gte, contains,
startsWith, endsWith whose applicability guard holds decides the result
and all later keys are ignored; in particular an `equals` key alone
determines the match whenever it is present. -/
theorem c10_first_operator_decides :
    (∀ v c, evaluateCondition v c = evalConditionPriority v c)
    ∧ (∀ v c, hasOp c "equals" = true →
        evaluateCondition v c = (getOp c "equals").jsStrictEqTo v) := by
  constructor
  · intro v c
    rfl
  · intro v c h
    simp [evaluateCondition, h]

/-- C10 witness: with `equals` present, its comparison alone decides,
ignoring a failing `lt` key. -/
theorem c10_first_operator_decides_w :
    evaluateCondition (vnum 1) [("equals", .prim (vnum 1)), ("lt", .prim (vnum 0))] = true := by
  rw [c10_first_operator_decides.2 (vnum 1) [("equals", .prim (vnum 1)), ("lt", .prim (vnum 0))] (by decide)]
  decide

/-- Length of a nonnegative-start slice. -/
theorem length_jsSliceFrom (l : List α) (s : Int) (hs : 0 ≤ s) :
    (jsSliceFrom l s).length = l.length - s.toNat := by
  simp [jsSliceFrom, if_neg (not_lt.mpr hs)]

/-- Length of a nonnegative-end initial slice. -/
theorem length_jsSliceUpTo (l : List α) (e : Int) (he : 0 ≤ e) :
    (jsSliceUpTo l e).length = min e.toNat l.length := by
  simp [jsSliceUpTo, if_neg (not_lt.mpr he)]

/-- C2, counterexample.  The claim says a zero (or negative) `take` yields
an empty result and that the result length is `max 0 (min k (len−s))`; but
the code tests `take` for JavaScript truthiness, so `take = 0` skips the
cap entirely and returns the whole remaining collection. -/
theorem c2_counterexample :
    paginate [[("id", vnum 1)]] (some 0) none = [[("id", vnum 1)]]
    ∧ ((paginate [[("id", vnum 1)]] (some 0) none).length : Int) ≠ max 0 (min 0 ((1 : Int) - 0)) := by
  decide

/-- C2 (corrected): the claimed pagination bound
`len (paginate R k s) = max 0 (min k (len R − s))` holds for a positive
take `k ≥ 1` and a nonnegative skip `s ≥ 0`, and the result is empty
whenever `s ≥ len R`; but `take = 0` is treated as absent (the falsy
guard skips the cap and the whole remainder is returned) and a negative
take drops elements from the end instead of yielding an empty result. -/
theorem c2_amended_bounds (R : List JSObj) (k s : Int) (hk : 1 ≤ k) (hs : 0 ≤ s) :
    ((paginate R (some k) (some s)).length : Int) = max 0 (min k ((R.length : Int) - s))
    ∧ (∀ t : Option Int, (R.length : Int) ≤ s → paginate R t (some s) = []) := by
  constructor
  · have hkn : (k.toNat : Int) = k := Int.toNat_of_nonneg (by omega)
    have hsn : (s.toNat : Int) = s := Int.toNat_of_nonneg hs
    simp only [paginate, ne_eq]
    split_ifs with h1 h2
    · exact absurd h1 (by omega)
    · exact absurd h1 (by omega)
    · rw [length_jsSliceUpTo _ _ (by omega)]
      omega
    · rw [length_jsSliceUpTo _ _ (by omega), length_jsSliceFrom _ _ hs]
      omega
  · intro t hlen
    have hdrop : jsSliceFrom R s = [] := by
      rw [jsSliceFrom, if_neg (not_lt.mpr hs)]
      refine List.drop_eq_nil_of_le ?_
      omega
    have hres : (if s ≠ 0 then jsSliceFrom R s else R) = [] := by
      by_cases hsz : s = 0
      · subst hsz
        have : R.length = 0 := by omega
        simpa [List.length_eq_zero] using this
      · simpa [hsz] using hdrop
    cases t with
    | none => simpa [paginate] using hres
    | some t =>
        simp only [paginate, hres]
        by_cases ht : t = 0
        · simp [ht]
        · simp [ht, jsSliceUpTo]

/-- C2 witness: two records, take 5, skip 1 — length is
`max 0 (min 5 (2 − 1)) = 1`. -/
theorem c2_amended_bounds_w :
    ((paginate [[("id", vnum 1)], [("id", vnum 2)]] (some 5) (some 1)).length : Int)
      = max 0 (min 5 ((2 : Int) - 1)) :=
  (c2_amended_bounds [[("id", vnum 1)], [("id", vnum 2)]] 5 1 (by decide) (by decide)).1

/-!
## Schema model, record mapper and table model
(src/types.ts ColumnDefinition, src/table-model.ts TableModel,
src/client.ts SpreadsheetClient — the single-table client declared second
in client.ts, lines 74-303)
-/

/-- The `default` attribute of a column: a constant or a zero-argument
generator (`typeof columnDef.default === "function"` distinguishes them).
A generator is modelled as a function of the invocation instant, a `Nat`
supplied once per `create`/`applyDefaults` call, so "invoked fresh per
call" is expressible.  An absent (`undefined`) default is `Option.none`
one level up. -/
inductive DefaultVal where
  | const : Value → DefaultVal
  | gen : (Nat → Value) → DefaultVal

/-- `ColumnDefinition` (types.ts lines 5-14).  The `type` attribute is
kept as a plain string tag; it is not consulted by any verified
operation. -/
structure ColumnDef where
  ctype : String := ""
  column : String
  primary : Bool := false
  unique : Bool := false
  required : Bool := false
  defaultVal : Option DefaultVal := none
  parser : Option (Value → Value) := none
  serializer : Option (Value → Value) := none

/-- A table schema: ordered mapping field name → column definition
(`Object.entries` order). -/
abbrev Schema := List (String × ColumnDef)

/-- Resolve a default at use: `typeof d === "function" ? d() : d`, the
generator receiving this call's instant. -/
def resolveDefault (d : DefaultVal) (t : Nat) : Value :=
  match d with
  | .const v => v
  | .gen f => f t

/-- `columnDef.default != null` (loose): a generator function is never
null; a constant passes unless it is `null`/`undefined`. -/
def dvNotLooseNull : DefaultVal → Bool
  | .const v => !(v.isLooseNull)
  | .gen _ => true

/-- The inline default-application loop of `TableModel.create`
(table-model.ts lines 145-155): fill a field when its default is declared
(`!== undefined`) and the supplied value is strictly `undefined` — an
explicit `null` is NOT filled. -/
def applyTableDefaultsStep (t : Nat) (nd : JSObj) (p : String × ColumnDef) : JSObj :=
  match p.2.defaultVal with
  | some dv =>
      if getKey nd p.1 == vundef then setKey nd p.1 (resolveDefault dv t) else nd
  | none => nd

def applyTableDefaults (schema : Schema) (t : Nat) (data : JSObj) : JSObj :=
  schema.foldl (applyTableDefaultsStep t) data

/-- `SpreadsheetClient.applyDefaults` (client.ts lines 149-162): fill a
field when its current value is loosely null (`== null`, i.e. null or
undefined/absent) and the column declares a non-null default. -/
def applyDefaultsStep (t : Nat) (res : JSObj) (p : String × ColumnDef) : JSObj :=
  match p.2.defaultVal with
  | some dv =>
      if (getKey res p.1).isLooseNull && dvNotLooseNull dv then
        setKey res p.1 (resolveDefault dv t)
      else res
  | none => res

def applyDefaults (schema : Schema) (t : Nat) (data : JSObj) : JSObj :=
  schema.foldl (applyDefaultsStep t) data

/-- `TableModel.mapRowToObject` (table-model.ts lines 54-71): for each
schema field whose column label occurs in the header (first occurrence,
`indexOf`), read the cell and apply the parser whenever one is present —
with no null/undefined guard. -/
def mapRowToObjectStep (headers : List String) (row : List Value) (obj : JSObj)
    (p : String × ColumnDef) : JSObj :=
  match headers.findIdx? (fun h => h == p.2.column) with
  | some i =>
      let value := row.getD i vundef
      let value := match p.2.parser with
        | some pf => pf value
        | none => value
      setKey obj p.1 value
  | none => obj

def mapRowToObject (schema : Schema) (headers : List String) (row : List Value) : JSObj :=
  schema.foldl (mapRowToObjectStep headers row) []

/-- `SpreadsheetClient.parseRow` (client.ts lines 114-129): same shape,
but the parser is applied only when the raw value is not loosely null
(`value != null`). -/
def parseRowStep (headers : List String) (row : List Value) (acc : JSObj)
    (p : String × ColumnDef) : JSObj :=
  match headers.findIdx? (fun h => h == p.2.column) with
  | some i =>
      let value := row.getD i vundef
      let value := match p.2.parser with
        | some pf => if value.isLooseNull then value else pf value
        | none => value
      setKey acc p.1 value
  | none => acc

def parseRow (schema : Schema) (headers : List String) (row : List Value) : JSObj :=
  schema.foldl (parseRowStep headers row) []

/-- `TableModel.mapObjectToRow` (table-model.ts lines 73-89): for each
header label, the first schema field bearing that label is serialized
(serializer applied whenever present); an unmapped label yields `""`. -/
def mapObjectToRow (schema : Schema) (headers : List String) (obj : JSObj) : List Value :=
  headers.map (fun header =>
    match schema.find? (fun p => p.2.column == header) with
    | some p =>
        let value := getKey obj p.1
        match p.2.serializer with
        | some sf => sf value
        | none => value
    | none => vstr "")

/-- `SpreadsheetClient.serializeRow` (client.ts lines 131-147): as
`mapObjectToRow` but the serializer is applied only to a value that is
not loosely null. -/
def serializeRow (schema : Schema) (headers : List String) (record : JSObj) : List Value :=
  headers.map (fun header =>
    match schema.find? (fun p => p.2.column == header) with
    | some p =>
        let value := getKey record p.1
        match p.2.serializer with
        | some sf => if value.isLooseNull then value else sf value
        | none => value
    | none => vstr "")

/-- `TableModel.setupColumnMap` (table-model.ts lines 30-42): the LAST
column flagged `primary` wins; with none, fall back to a field literally
named "id" when the schema has one, else the primary key stays unset.
No error is ever raised here. -/
def setupPrimaryKey (schema : Schema) : Option String :=
  let pk := schema.foldl (fun acc p => if p.2.primary then some p.1 else acc) none
  match pk with
  | some f => some f
  | none => if schema.any (fun p => p.1 == "id") then some "id" else none

/-- The in-memory state of a constructed `TableModel`. -/
structure TableState where
  schema : Schema
  headers : List String
  data : List JSObj
  primaryKey : Option String

/-- The `TableModel` constructor (table-model.ts lines 20-28 with 30-52
and 91-94): set up the column map and primary key, open the sheet
(`none` models a missing sheet — the only failure point; NO schema
validation occurs), take the first row as the header layout and map every
data row through `mapRowToObject`.  The `sheet` argument is the backing
store content as (header row, data rows). -/
def tableModelInit (schema : Schema) (sheet : Option (List String × List (List Value))) :
    Except String TableState :=
  let pk := setupPrimaryKey schema
  match sheet with
  | none => .error "Sheet not found"
  | some (headers, rows) =>
      .ok { schema := schema, headers := headers,
            data := rows.map (fun row => mapRowToObject schema headers row),
            primaryKey := pk }

/-- `SpreadsheetClient.validateSchema` (client.ts lines 91-102). -/
def validateSchema (schema : Schema) : Except String Unit :=
  let primaryKeys := (schema.filter (fun p => p.2.primary)).map (fun p => p.1)
  if primaryKeys.length = 0 then .error "No primary key defined in schema"
  else if primaryKeys.length > 1 then .error "Multiple primary keys are not supported"
  else .ok ()

/-- The in-memory state of a constructed single-table `SpreadsheetClient`. -/
structure ClientState where
  schema : Schema
  headers : List String
  data : List JSObj

/-- The single-table `SpreadsheetClient` constructor (client.ts lines
80-89): validate the schema FIRST, then open the sheet and load rows via
`parseRow`. -/
def clientInit (schema : Schema) (sheet : Option (List String × List (List Value))) :
    Except String ClientState :=
  match validateSchema schema with
  | .error e => .error e
  | .ok _ =>
      match sheet with
      | none => .error "Sheet not found"
      | some (headers, rows) =>
          .ok { schema := schema, headers := headers,
                data := rows.map (fun row => parseRow schema headers row) }

/-- `TableModel.create` (table-model.ts lines 140-177), returning the
result together with the post-call cache state (on a throw the cache is
the unchanged input state, since the throw happens before the push).
`t` is this call's generator instant. -/
def tmCreate (s : TableState) (t : Nat) (d : JSObj) : Except String JSObj × TableState :=
  let newData := applyTableDefaults s.schema t d
  match s.primaryKey with
  | some pk =>
      if getKey newData pk == vundef then
        (.ok newData, { s with data := s.data ++ [newData] })
      else
        if s.data.any (fun item => jsStrictEq (getKey item pk) (getKey newData pk)) then
          (.error ("Record with " ++ pk ++ " already exists"), s)
        else
          (.ok newData, { s with data := s.data ++ [newData] })
  | none => (.ok newData, { s with data := s.data ++ [newData] })

/-- `TableModel.findRowIndex` (table-model.ts lines 96-100):
`Array.prototype.findIndex`, -1 when no record's primary-key field is
strictly equal to the probe. -/
def findRowIndex (pk : String) (data : List JSObj) (idv : Value) : Int :=
  match data.findIdx? (fun item => jsStrictEq (getKey item pk) idv) with
  | some i => (i : Int)
  | none => -1

def insertDesc (x : Int) : List Int → List Int
  | [] => [x]
  | y :: ys => if x ≥ y then x :: y :: ys else y :: insertDesc x ys

/-- `indices.sort((a, b) => b - a)`: numerically descending order
(insertion sort; on integers any descending sort produces the same list). -/
def sortDesc (l : List Int) : List Int := l.foldr insertDesc []

/-- `Array.prototype.splice(i, 1)`: remove one element; a negative index
counts from the end (clamped at 0), an index at or past the end removes
nothing. -/
def spliceRemoveOne (d : List α) (i : Int) : List α :=
  d.eraseIdx (if i < 0 then (max ((d.length : Int) + i) 0).toNat else i.toNat)

/-- `TableModel.deleteMany` (table-model.ts lines 232-256): filter the
matches, map each matched record to the index found by a primary-key
lookup over the CURRENT cache, sort the indices descending, splice each
index that is not -1, and return the count of collected indices.  The
theorems address a model whose `primaryKey` is set; with it unset
JavaScript would read the literal property "undefined", which `getD`
mirrors. -/
def tmDeleteMany (s : TableState) (w : Option WhereObj) : Nat × TableState :=
  let toDelete := match w with
    | none => s.data
    | some w => s.data.filter (fun item => matchesWhere item w)
  let pk := s.primaryKey.getD "undefined"
  let indices := sortDesc (toDelete.map (fun item => findRowIndex pk s.data (getKey item pk)))
  let data2 := indices.foldl (fun d i => if i ≠ -1 then spliceRemoveOne d i else d) s.data
  (indices.length, { s with data := data2 })

/-!
## Association-list and fold helper lemmas
-/

theorem getKey_cons (k' : String) (v' : Value) (rest : JSObj) (k : String) :
    getKey ((k', v') :: rest) k = if k' = k then v' else getKey rest k := by
  by_cases h : k' = k
  · subst h
    simp [getKey, List.find?_cons]
  · simp [getKey, List.find?_cons, beq_eq_false_iff_ne.mpr h, h]

theorem hasKey_cons (k' : String) (v' : Value) (rest : JSObj) (k : String) :
    hasKey ((k', v') :: rest) k = (decide (k' = k) || hasKey rest k) := by
  by_cases h : k' = k
  · simp [hasKey, h]
  · simp [hasKey, h]

theorem getKey_setKey_self (o : JSObj) (k : String) (v : Value) :
    getKey (setKey o k v) k = v := by
  induction o with
  | nil => simp [setKey, getKey_cons]
  | cons p rest ih =>
      obtain ⟨k', v'⟩ := p
      by_cases h : k' = k
      · simp [setKey, h, getKey_cons]
      · simp [setKey, h, getKey_cons, ih]

theorem getKey_setKey_ne (o : JSObj) (k : String) (v : Value) (k2 : String) (h : k ≠ k2) :
    getKey (setKey o k v) k2 = getKey o k2 := by
  induction o with
  | nil => simp [setKey, getKey_cons, getKey, h]
  | cons p rest ih =>
      obtain ⟨k', v'⟩ := p
      by_cases hk : k' = k
      · subst hk
        simp [setKey, getKey_cons, h]
      · simp [setKey, hk, getKey_cons, ih]

theorem hasKey_setKey_ne (o : JSObj) (k : String) (v : Value) (k2 : String) (h : k ≠ k2) :
    hasKey (setKey o k v) k2 = hasKey o k2 := by
  induction o with
  | nil => simp [setKey, hasKey_cons, hasKey, h]
  | cons p rest ih =>
      obtain ⟨k', v'⟩ := p
      by_cases hk : k' = k
      · subst hk
        simp [setKey, hasKey_cons, h]
      · simp [setKey, hk, hasKey_cons, ih]

/-- A schema fold whose step never touches other fields' keys leaves a
field not named in the schema untouched. -/
theorem foldl_getKey_notmem {step : JSObj → (String × ColumnDef) → JSObj}
    (hne : ∀ acc p k, p.1 ≠ k → getKey (step acc p) k = getKey acc k)
    (schema : Schema) (acc : JSObj) (f : String) (h : ¬ f ∈ schema.map Prod.fst) :
    getKey (schema.foldl step acc) f = getKey acc f := by
  induction schema generalizing acc with
  | nil => rfl
  | cons p rest ih =>
      simp only [List.map_cons, List.mem_cons, not_or] at h
      rw [List.foldl_cons, ih _ h.2, hne _ _ _ (fun e => h.1 e.symm)]

theorem foldl_hasKey_notmem {step : JSObj → (String × ColumnDef) → JSObj}
    (hne : ∀ acc p k, p.1 ≠ k → hasKey (step acc p) k = hasKey acc k)
    (schema : Schema) (acc : JSObj) (f : String) (h : ¬ f ∈ schema.map Prod.fst) :
    hasKey (schema.foldl step acc) f = hasKey acc f := by
  induction schema generalizing acc with
  | nil => rfl
  | cons p rest ih =>
      simp only [List.map_cons, List.mem_cons, not_or] at h
      rw [List.foldl_cons, ih _ h.2, hne _ _ _ (fun e => h.1 e.symm)]

/-- Characterization of a schema fold at a field the schema names (once):
the final value at the field is the step's own-key action `valf` applied
to the field's initial value. -/
theorem foldl_getKey_mem {step : JSObj → (String × ColumnDef) → JSObj}
    (hne : ∀ acc p k, p.1 ≠ k → getKey (step acc p) k = getKey acc k)
    (valf : Value → (String × ColumnDef) → Value)
    (hself : ∀ acc p, getKey (step acc p) p.1 = valf (getKey acc p.1) p)
    (schema : Schema) (acc : JSObj) (f : String) (c : ColumnDef)
    (hmem : (f, c) ∈ schema) (hnodup : (schema.map Prod.fst).Nodup) :
    getKey (schema.foldl step acc) f = valf (getKey acc f) (f, c) := by
  induction schema generalizing acc with
  | nil => cases hmem
  | cons p rest ih =>
      rw [List.map_cons, List.nodup_cons] at hnodup
      rcases List.mem_cons.mp hmem with heq | hmem2
      · subst heq
        rw [List.foldl_cons, foldl_getKey_notmem hne rest _ f hnodup.1, hself]
      · have hpf : p.1 ≠ f := by
          intro e
          exact hnodup.1 (e ▸ List.mem_map_of_mem Prod.fst hmem2)
        rw [List.foldl_cons, ih _ hmem2 hnodup.2, hne _ _ _ hpf]

/-- As `foldl_getKey_mem` but for key presence, for a step that leaves the
presence of its own key unchanged at the given entry. -/
theorem foldl_hasKey_mem_skip {step : JSObj → (String × ColumnDef) → JSObj}
    (hne : ∀ acc p k, p.1 ≠ k → hasKey (step acc p) k = hasKey acc k)
    (schema : Schema) (acc : JSObj) (f : String) (c : ColumnDef)
    (hmem : (f, c) ∈ schema) (hnodup : (schema.map Prod.fst).Nodup)
    (hskip : ∀ acc, hasKey (step acc (f, c)) f = hasKey acc f) :
    hasKey (schema.foldl step acc) f = hasKey acc f := by
  induction schema generalizing acc with
  | nil => cases hmem
  | cons p rest ih =>
      rw [List.map_cons, List.nodup_cons] at hnodup
      rcases List.mem_cons.mp hmem with heq | hmem2
      · subst heq
        rw [List.foldl_cons, foldl_hasKey_notmem hne rest _ f hnodup.1, hskip]
      · have hpf : p.1 ≠ f := by
          intro e
          exact hnodup.1 (e ▸ List.mem_map_of_mem Prod.fst hmem2)
        rw [List.foldl_cons, ih _ hmem2 hnodup.2, hne _ _ _ hpf]

theorem applyDefaultsStep_getKey_ne (t : Nat) (acc : JSObj) (p : String × ColumnDef)
    (k : String) (h : p.1 ≠ k) :
    getKey (applyDefaultsStep t acc p) k = getKey acc k := by
  cases hdv : p.2.defaultVal with
  | none => simp [applyDefaultsStep, hdv]
  | some dv =>
      simp only [applyDefaultsStep, hdv]
      split_ifs
      · exact getKey_setKey_ne _ _ _ _ h
      · rfl

theorem applyDefaultsStep_getKey_self (t : Nat) (acc : JSObj) (p : String × ColumnDef) :
    getKey (applyDefaultsStep t acc p) p.1 =
      (match p.2.defaultVal with
       | some dv =>
          if (getKey acc p.1).isLooseNull && dvNotLooseNull dv then resolveDefault dv t
          else getKey acc p.1
       | none => getKey acc p.1) := by
  cases hdv : p.2.defaultVal with
  | none => simp [applyDefaultsStep, hdv]
  | some dv =>
      simp only [applyDefaultsStep, hdv]
      split_ifs
      · exact getKey_setKey_self _ _ _
      · rfl

theorem applyTableDefaultsStep_getKey_ne (t : Nat) (acc : JSObj) (p : String × ColumnDef)
    (k : String) (h : p.1 ≠ k) :
    getKey (applyTableDefaultsStep t acc p) k = getKey acc k := by
  cases hdv : p.2.defaultVal with
  | none => simp [applyTableDefaultsStep, hdv]
  | some dv =>
      simp only [applyTableDefaultsStep, hdv]
      split_ifs
      · exact getKey_setKey_ne _ _ _ _ h
      · rfl

theorem parseRowStep_getKey_ne (headers : List String) (row : List Value) (acc : JSObj)
    (p : String × ColumnDef) (k : String) (h : p.1 ≠ k) :
    getKey (parseRowStep headers row acc p) k = getKey acc k := by
  cases hi : headers.findIdx? (fun x => x == p.2.column) with
  | none => simp [parseRowStep, hi]
  | some i =>
      simp only [parseRowStep, hi]
      exact getKey_setKey_ne _ _ _ _ h

theorem parseRowStep_hasKey_ne (headers : List String) (row : List Value) (acc : JSObj)
    (p : String × ColumnDef) (k : String) (h : p.1 ≠ k) :
    hasKey (parseRowStep headers row acc p) k = hasKey acc k := by
  cases hi : headers.findIdx? (fun x => x == p.2.column) with
  | none => simp [parseRowStep, hi]
  | some i =>
      simp only [parseRowStep, hi]
      exact hasKey_setKey_ne _ _ _ _ h

theorem parseRowStep_getKey_self (headers : List String) (row : List Value) (acc : JSObj)
    (p : String × ColumnDef) :
    getKey (parseRowStep headers row acc p) p.1 =
      (match headers.findIdx? (fun x => x == p.2.column) with
       | some i =>
          (match p.2.parser with
           | some pf =>
              if (row.getD i vundef).isLooseNull then row.getD i vundef
              else pf (row.getD i vundef)
           | none => row.getD i vundef)
       | none => getKey acc p.1) := by
  cases hi : headers.findIdx? (fun x => x == p.2.column) with
  | none => simp [parseRowStep, hi]
  | some i =>
      simp only [parseRowStep, hi]
      exact getKey_setKey_self _ _ _

theorem mapRowToObjectStep_getKey_ne (headers : List String) (row : List Value) (acc : JSObj)
    (p : String × ColumnDef) (k : String) (h : p.1 ≠ k) :
    getKey (mapRowToObjectStep headers row acc p) k = getKey acc k := by
  cases hi : headers.findIdx? (fun x => x == p.2.column) with
  | none => simp [mapRowToObjectStep, hi]
  | some i =>
      simp only [mapRowToObjectStep, hi]
      exact getKey_setKey_ne _ _ _ _ h

theorem mapRowToObjectStep_getKey_self (headers : List String) (row : List Value) (acc : JSObj)
    (p : String × ColumnDef) :
    getKey (mapRowToObjectStep headers row acc p) p.1 =
      (match headers.findIdx? (fun x => x == p.2.column) with
       | some i =>
          (match p.2.parser with
           | some pf => pf (row.getD i vundef)
           | none => row.getD i vundef)
       | none => getKey acc p.1) := by
  cases hi : headers.findIdx? (fun x => x == p.2.column) with
  | none => simp [mapRowToObjectStep, hi]
  | some i =>
      simp only [mapRowToObjectStep, hi]
      exact getKey_setKey_self _ _ _

/-- Per-field characterization of `applyDefaults` on a schema with
pairwise-distinct field names. -/
theorem applyDefaults_getKey (schema : Schema) (t : Nat) (data : JSObj) (f : String)
    (c : ColumnDef) (hmem : (f, c) ∈ schema) (hnodup : (schema.map Prod.fst).Nodup) :
    getKey (applyDefaults schema t data) f =
      (match c.defaultVal with
       | some dv =>
          if (getKey data f).isLooseNull && dvNotLooseNull dv then resolveDefault dv t
          else getKey data f
       | none => getKey data f) := by
  exact foldl_getKey_mem (applyDefaultsStep_getKey_ne t)
    (fun v p =>
      match p.2.defaultVal with
      | some dv => if v.isLooseNull && dvNotLooseNull dv then resolveDefault dv t else v
      | none => v)
    (applyDefaultsStep_getKey_self t) schema data f c hmem hnodup

/-- Per-field characterization of `parseRow` on a schema with
pairwise-distinct field names whose column label occurs in the header. -/
theorem parseRow_getKey (schema : Schema) (headers : List String) (row : List Value)
    (f : String) (c : ColumnDef) (hmem : (f, c) ∈ schema)
    (hnodup : (schema.map Prod.fst).Nodup) (i : Nat)
    (hi : headers.findIdx? (fun x => x == c.column) = some i) :
    getKey (parseRow schema headers row) f =
      (match c.parser with
       | some pf =>
          if (row.getD i vundef).isLooseNull then row.getD i vundef
          else pf (row.getD i vundef)
       | none => row.getD i vundef) := by
  have h := foldl_getKey_mem (parseRowStep_getKey_ne headers row)
    (fun v p =>
      match headers.findIdx? (fun x => x == p.2.column) with
      | some i =>
        (match p.2.parser with
         | some pf =>
            if (row.getD i vundef).isLooseNull then row.getD i vundef
            else pf (row.getD i vundef)
         | none => row.getD i vundef)
      | none => v)
    (parseRowStep_getKey_self headers row) schema [] f c hmem hnodup
  rw [parseRow, h]
  simp only [hi]

/-- A schema field whose column label is absent from the header is
omitted from the `parseRow` result. -/
theorem parseRow_hasKey_none (schema : Schema) (headers : List String) (row : List Value)
    (f : String) (c : ColumnDef) (hmem : (f, c) ∈ schema)
    (hnodup : (schema.map Prod.fst).Nodup)
    (hi : headers.findIdx? (fun x => x == c.column) = none) :
    hasKey (parseRow schema headers row) f = false := by
  have h := foldl_hasKey_mem_skip (parseRowStep_hasKey_ne headers row)
    schema [] f c hmem hnodup
    (fun acc => by simp [parseRowStep, hi])
  rw [parseRow, h]
  rfl

/-- Per-field characterization of `mapRowToObject` on a schema with
pairwise-distinct field names whose column label occurs in the header. -/
theorem mapRowToObject_getKey (schema : Schema) (headers : List String) (row : List Value)
    (f : String) (c : ColumnDef) (hmem : (f, c) ∈ schema)
    (hnodup : (schema.map Prod.fst).Nodup) (i : Nat)
    (hi : headers.findIdx? (fun x => x == c.column) = some i) :
    getKey (mapRowToObject schema headers row) f =
      (match c.parser with
       | some pf => pf (row.getD i vundef)
       | none => row.getD i vundef) := by
  have h := foldl_getKey_mem (mapRowToObjectStep_getKey_ne headers row)
    (fun v p =>
      match headers.findIdx? (fun x => x == p.2.column) with
      | some i =>
        (match p.2.parser with
         | some pf => pf (row.getD i vundef)
         | none => row.getD i vundef)
      | none => v)
    (mapRowToObjectStep_getKey_self headers row) schema [] f c hmem hnodup
  rw [mapRowToObject, h]
  simp only [hi]

/-- C3, counterexample.  The claim says a schema with zero or more than one
primary-key column makes table-model construction fail before loading
data; but the `TableModel` constructor performs no validation: a schema
with TWO primary columns constructs successfully (the last flag wins) and
a schema with NO primary column and no `id` field also constructs
successfully (with the primary key left unset). -/
theorem c3_counterexample :
    (tableModelInit
        [("a", { column := "A", primary := true }), ("b", { column := "B", primary := true })]
        (some (["A", "B"], []))).isOk = true
    ∧ (tableModelInit [("name", { column := "Name" })] (some (["Name"], []))).isOk = true
    ∧ setupPrimaryKey
        [("a", { column := "A", primary := true }), ("b", { column := "B", primary := true })]
        = some "b"
    ∧ setupPrimaryKey [("name", { column := "Name" })] = none :=
  ⟨rfl, rfl, rfl, rfl⟩

/-- C3 (corrected): the single-table `SpreadsheetClient` does validate —
with zero or multiple primary-key columns its constructor fails with a
schema error before touching the sheet (for EVERY sheet content,
including a missing sheet, so no partially constructed state exists); the
`TableModel` class, by contrast, performs no such validation and
constructs a model regardless (last primary flag wins, falling back to a
field named "id"). -/
theorem c3_amended_client_validates (schema : Schema)
    (sheet : Option (List String × List (List Value)))
    (h : (schema.filter (fun p => p.2.primary)).length ≠ 1) :
    ∃ msg, clientInit schema sheet = .error msg := by
  unfold clientInit validateSchema
  by_cases h0 : (schema.filter (fun p => p.2.primary)).length = 0
  · refine ⟨"No primary key defined in schema", ?_⟩
    simp [List.length_map, h0]
  · refine ⟨"Multiple primary keys are not supported", ?_⟩
    have h2 : 1 < (schema.filter (fun p => p.2.primary)).length := by omega
    simp [List.length_map, h0, h2]

/-- C3 witness: the empty schema (zero primary keys) is rejected by the
client constructor even with no sheet behind it. -/
theorem c3_amended_client_validates_w :
    ∃ msg, clientInit [] none = .error msg :=
  c3_amended_client_validates [] none (by decide)

/-- C6, counterexample.  The claim says default application fills every
defaulted field whose value is null or absent; the inline default step of
`TableModel.create` tests `=== undefined` only, so an explicitly null
field keeps its null and the default is NOT applied (the client's
`applyDefaults`, with its loose `== null` test, does fill it). -/
theorem c6_counterexample :
    applyTableDefaults [("f", { column := "A", defaultVal := some (.const (vnum 42)) })] 0
        [("f", vnull)]
      = [("f", vnull)]
    ∧ applyDefaults [("f", { column := "A", defaultVal := some (.const (vnum 42)) })] 0
        [("f", vnull)]
      = [("f", vnum 42)] :=
  ⟨rfl, rfl⟩

/-- C6 (corrected): the claimed behaviour holds of
`SpreadsheetClient.applyDefaults` on a schema with pairwise-distinct field
names — a field whose value is loosely null (null or absent) and whose
column declares a non-null default is filled, a constant default is used
directly and a generator default is invoked with the instant of this very
call (hence fresh per call), and a present non-null value is never
overwritten; the inline default application of `TableModel.create`,
however, fills only strictly-undefined fields, leaving an explicit null
unfilled. -/
theorem c6_amended_apply_defaults (schema : Schema) (t : Nat) (data : JSObj)
    (f : String) (c : ColumnDef) (hmem : (f, c) ∈ schema)
    (hnodup : (schema.map Prod.fst).Nodup) :
    ((getKey data f).isLooseNull = false →
        getKey (applyDefaults schema t data) f = getKey data f)
    ∧ (∀ dv, c.defaultVal = some dv → dvNotLooseNull dv = true →
        (getKey data f).isLooseNull = true →
        getKey (applyDefaults schema t data) f = resolveDefault dv t)
    ∧ (c.defaultVal = none →
        getKey (applyDefaults schema t data) f = getKey data f) := by
  have h := applyDefaults_getKey schema t data f c hmem hnodup
  refine ⟨?_, ?_, ?_⟩
  · intro hnn
    rw [h]
    cases c.defaultVal with
    | none => rfl
    | some dv => simp [hnn]
  · intro dv hdv hd hnull
    rw [h, hdv]
    simp [hnull, hd]
  · intro hdv
    rw [h, hdv]

/-- C6 witness: a null field with a constant default 42 is filled by the
client's `applyDefaults`. -/
theorem c6_amended_apply_defaults_w :
    getKey (applyDefaults [("f", { column := "A", defaultVal := some (.const (vnum 42)) })] 0
      [("f", vnull)]) "f" = vnum 42 :=
  (c6_amended_apply_defaults
      [("f", { column := "A", defaultVal := some (.const (vnum 42)) })] 0 [("f", vnull)]
      "f" { column := "A", defaultVal := some (.const (vnum 42)) }
      (List.mem_singleton.mpr rfl) (by simp)).2.1
    (.const (vnum 42)) rfl rfl rfl

/-- C7, counterexample.  The claim says the parser is applied only when
the raw cell value is not absent/null; `TableModel.mapRowToObject`
applies the parser unconditionally, so a null raw cell under a parser
that yields 7 produces 7 instead of the raw null
(`SpreadsheetClient.parseRow`, with its `value != null` guard, keeps the
null). -/
theorem c7_counterexample :
    mapRowToObject [("f", { column := "A", parser := some (fun _ => vnum 7) })] ["A"] [vnull]
      = [("f", vnum 7)]
    ∧ parseRow [("f", { column := "A", parser := some (fun _ => vnum 7) })] ["A"] [vnull]
      = [("f", vnull)]
    ∧ (vnum 7 ≠ vnull) :=
  ⟨rfl, rfl, by decide⟩

/-- C7 (corrected): the claimed row-to-record behaviour holds of
`SpreadsheetClient.parseRow` on a schema with pairwise-distinct field
names — a field whose column label occurs in the header receives the raw
cell value, with the parser applied exactly when one is present and the
raw value is not loosely null, and a field whose label is absent from the
header is omitted from the record; `TableModel.mapRowToObject`, however,
applies the parser whenever present, including to absent/null raw
values. -/
theorem c7_amended_parse_row (schema : Schema) (headers : List String) (row : List Value)
    (f : String) (c : ColumnDef) (hmem : (f, c) ∈ schema)
    (hnodup : (schema.map Prod.fst).Nodup) :
    (∀ i, headers.findIdx? (fun x => x == c.column) = some i →
        (∀ pf, c.parser = some pf → (row.getD i vundef).isLooseNull = false →
            getKey (parseRow schema headers row) f = pf (row.getD i vundef))
        ∧ (∀ pf, c.parser = some pf → (row.getD i vundef).isLooseNull = true →
            getKey (parseRow schema headers row) f = row.getD i vundef)
        ∧ (c.parser = none → getKey (parseRow schema headers row) f = row.getD i vundef))
    ∧ (headers.findIdx? (fun x => x == c.column) = none →
        hasKey (parseRow schema headers row) f = false) := by
  constructor
  · intro i hi
    have h := parseRow_getKey schema headers row f c hmem hnodup i hi
    refine ⟨?_, ?_, ?_⟩
    · intro pf hpf hnn
      rw [h, hpf]
      simp only [hnn]
      simp
    · intro pf hpf hnull
      rw [h, hpf]
      simp only [hnull]
      simp
    · intro hpf
      rw [h, hpf]
  · intro hi
    exact parseRow_hasKey_none schema headers row f c hmem hnodup hi

/-- C7 witness: a non-null raw cell is parsed, a null one is passed
through, and a field with an unknown label is omitted. -/
theorem c7_amended_parse_row_w :
    getKey (parseRow [("f", { column := "A", parser := some (fun v => vnum (valueOfNum v + 1)) })]
        ["A"] [vnum 5]) "f" = vnum 6 :=
  ((c7_amended_parse_row
      [("f", { column := "A", parser := some (fun v => vnum (valueOfNum v + 1)) })]
      ["A"] [vnum 5] "f" { column := "A", parser := some (fun v => vnum (valueOfNum v + 1)) }
      (List.mem_singleton.mpr rfl) (by simp)).1 0 rfl).1
    (fun v => vnum (valueOfNum v + 1)) rfl rfl

theorem jsStrictEq_vundef_right_false (v : Value) (h : v ≠ vundef) :
    jsStrictEq v vundef = false := by
  cases v <;> simp_all [jsStrictEq]

/-- Primary-key uniqueness of a cache: any two distinct records either
have no defined primary-key value on the left, or strictly distinct
primary-key values (a record without a primary-key value never conflicts). -/
def pkUnique (pk : String) (data : List JSObj) : Prop :=
  data.Pairwise (fun r1 r2 =>
    getKey r1 pk = vundef ∨ jsStrictEq (getKey r1 pk) (getKey r2 pk) = false)

theorem tmCreate_eq_of_pk (s : TableState) (pk : String) (t : Nat) (d : JSObj)
    (hpk : s.primaryKey = some pk) :
    tmCreate s t d =
      (let nd := applyTableDefaults s.schema t d
       if getKey nd pk == vundef then (.ok nd, { s with data := s.data ++ [nd] })
       else if s.data.any (fun item => jsStrictEq (getKey item pk) (getKey nd pk)) then
         (.error ("Record with " ++ pk ++ " already exists"), s)
       else (.ok nd, { s with data := s.data ++ [nd] })) := by
  unfold tmCreate
  rw [hpk]

/-- One `create` call preserves primary-key uniqueness of the cache. -/
theorem tmCreate_preserves_pkUnique (s : TableState) (pk : String) (t : Nat) (d : JSObj)
    (hpk : s.primaryKey = some pk) (hu : pkUnique pk s.data) :
    pkUnique pk ((tmCreate s t d).2).data := by
  rw [tmCreate_eq_of_pk s pk t d hpk]
  set nd := applyTableDefaults s.schema t d with hnd
  by_cases h1 : getKey nd pk = vundef
  · rw [if_pos (by simp [h1])]
    unfold pkUnique
    apply List.pairwise_append.mpr
    refine ⟨hu, by simp, ?_⟩
    intro r hr nd' hnd'
    simp only [List.mem_singleton] at hnd'
    subst hnd'
    by_cases hr0 : getKey r pk = vundef
    · exact Or.inl hr0
    · right
      rw [h1]
      exact jsStrictEq_vundef_right_false _ hr0
  · rw [if_neg (by simp [beq_iff_eq, h1])]
    by_cases h2 : s.data.any (fun item => jsStrictEq (getKey item pk) (getKey nd pk)) = true
    · rw [if_pos h2]
      exact hu
    · rw [if_neg h2]
      unfold pkUnique
      apply List.pairwise_append.mpr
      refine ⟨hu, by simp, ?_⟩
      intro r hr nd' hnd'
      simp only [List.mem_singleton] at hnd'
      subst hnd'
      right
      have h3 : ¬ (jsStrictEq (getKey r pk) (getKey nd pk) = true) := by
        intro hcontra
        exact h2 (List.any_eq_true.mpr ⟨r, hr, hcontra⟩)
      exact Bool.eq_false_iff.mpr h3

/-- `create` never changes which field is the primary key. -/
theorem tmCreate_primaryKey_eq (s : TableState) (t : Nat) (d : JSObj) :
    ((tmCreate s t d).2).primaryKey = s.primaryKey := by
  unfold tmCreate
  cases hpk : s.primaryKey with
  | none => rfl
  | some pk =>
      dsimp only
      split_ifs
      · rfl
      · exact hpk
      · rfl

/-- A sequence of `create` calls (each with its own generator instant and
payload), threading the cache state. -/
def tmCreateSeq (s : TableState) (ops : List (Nat × JSObj)) : TableState :=
  ops.foldl (fun st op => (tmCreate st op.1 op.2).2) s

theorem tmCreateSeq_pkUnique (ops : List (Nat × JSObj)) (s : TableState) (pk : String)
    (hpk : s.primaryKey = some pk) (hu : pkUnique pk s.data) :
    pkUnique pk (tmCreateSeq s ops).data := by
  induction ops generalizing s with
  | nil => exact hu
  | cons op rest ih =>
      exact ih ((tmCreate s op.1 op.2).2)
        (by rw [tmCreate_primaryKey_eq]; exact hpk)
        (tmCreate_preserves_pkUnique s pk op.1 op.2 hpk hu)

/-- C4 (confirmed): on a table model whose primary key is set and whose
cache satisfies primary-key uniqueness, (i) any sequence of `create`
calls preserves uniqueness — no two cached records ever share a defined
primary-key value; (ii) a `create` whose data, after default application,
carries a primary-key value strictly equal to one already cached fails
with the duplicate-key error and leaves the state unchanged; (iii)
otherwise (no cached record matches, or the new record carries no
primary-key value) the call succeeds and appends exactly the
defaults-applied record to the cache. -/
theorem c4_create_unique (s : TableState) (pk : String) (t : Nat) (d : JSObj)
    (hpk : s.primaryKey = some pk) (hu : pkUnique pk s.data) :
    (∀ ops : List (Nat × JSObj), pkUnique pk (tmCreateSeq s ops).data)
    ∧ (getKey (applyTableDefaults s.schema t d) pk ≠ vundef →
        (∃ r ∈ s.data,
          jsStrictEq (getKey r pk) (getKey (applyTableDefaults s.schema t d) pk) = true) →
        (tmCreate s t d).1 = .error ("Record with " ++ pk ++ " already exists")
        ∧ (tmCreate s t d).2 = s)
    ∧ ((getKey (applyTableDefaults s.schema t d) pk = vundef
        ∨ (∀ r ∈ s.data,
            jsStrictEq (getKey r pk) (getKey (applyTableDefaults s.schema t d) pk) = false)) →
        (tmCreate s t d).1 = .ok (applyTableDefaults s.schema t d)
        ∧ (tmCreate s t d).2.data = s.data ++ [applyTableDefaults s.schema t d]) := by
  refine ⟨fun ops => tmCreateSeq_pkUnique ops s pk hpk hu, ?_, ?_⟩
  · intro hne hdup
    rw [tmCreate_eq_of_pk s pk t d hpk]
    rcases hdup with ⟨r, hr, hreq⟩
    rw [if_neg (by simp [beq_iff_eq, hne]), if_pos (List.any_eq_true.mpr ⟨r, hr, hreq⟩)]
    exact ⟨rfl, rfl⟩
  · intro hfresh
    rw [tmCreate_eq_of_pk s pk t d hpk]
    rcases hfresh with hun | hnone
    · rw [if_pos (by simp [hun])]
      exact ⟨rfl, rfl⟩
    · by_cases h1 : getKey (applyTableDefaults s.schema t d) pk = vundef
      · rw [if_pos (by simp [h1])]
        exact ⟨rfl, rfl⟩
      · rw [if_neg (by simp [beq_iff_eq, h1])]
        rw [if_neg ?hany]
        · exact ⟨rfl, rfl⟩
        case hany =>
          intro hcontra
          rcases List.any_eq_true.mp hcontra with ⟨r, hr, hreq⟩
          rw [hnone r hr] at hreq
          cases hreq

/-- C4 witness: creating `{id: 1}` against a cache already holding
`{id: 1}` fails with the duplicate-key error. -/
theorem c4_create_unique_w :
    (tmCreate ⟨[], [], [[("id", vnum 1)]], some "id"⟩ 0 [("id", vnum 1)]).1
      = .error ("Record with " ++ "id" ++ " already exists") :=
  ((c4_create_unique ⟨[], [], [[("id", vnum 1)]], some "id"⟩ "id" 0 [("id", vnum 1)] rfl
      (by unfold pkUnique; decide)).2.1 (by decide)
    ⟨[("id", vnum 1)], by simp, by decide⟩).1

/-!
## deleteMany machinery (claim C9)
-/

/-- The optional-where match used by `deleteMany`: no condition matches
every record. -/
def matchesOpt (w : Option WhereObj) (r : JSObj) : Bool :=
  match w with
  | none => true
  | some wo => matchesWhere r wo

/-- The cached records carry pairwise strictly-distinct primary-key
values. -/
def pkDistinct (pk : String) (data : List JSObj) : Prop :=
  List.Pairwise (fun r1 r2 => jsStrictEq (getKey r1 pk) (getKey r2 pk) = false) data

/-- Every cached record's primary-key value is strictly equal to itself
(true of every primitive value, false only for object values such as
`Date`). -/
def pkSelfEq (pk : String) (data : List JSObj) : Prop :=
  ∀ r ∈ data, jsStrictEq (getKey r pk) (getKey r pk) = true

/-- The ascending list of positions of the records a predicate matches. -/
def matchedIdxsInt (pred : JSObj → Bool) : List JSObj → List Int
  | [] => []
  | x :: xs =>
      if pred x then 0 :: (matchedIdxsInt pred xs).map (· + 1)
      else (matchedIdxsInt pred xs).map (· + 1)

theorem matchedIdxsInt_nonneg (pred : JSObj → Bool) (data : List JSObj) :
    ∀ i ∈ matchedIdxsInt pred data, 0 ≤ i := by
  induction data with
  | nil => intro i hi; cases hi
  | cons x xs ih =>
      intro i hi
      by_cases hp : pred x
      · rw [matchedIdxsInt, if_pos hp] at hi
        rcases List.mem_cons.mp hi with h0 | hmap
        · omega
        · rcases List.mem_map.mp hmap with ⟨j, hj, rfl⟩
          have := ih j hj
          omega
      · rw [matchedIdxsInt, if_neg hp] at hi
        rcases List.mem_map.mp hi with ⟨j, hj, rfl⟩
        have := ih j hj
        omega

theorem matchedIdxsInt_sorted (pred : JSObj → Bool) (data : List JSObj) :
    List.Pairwise (· < ·) (matchedIdxsInt pred data) := by
  induction data with
  | nil => exact List.Pairwise.nil
  | cons x xs ih =>
      have hmap : List.Pairwise (· < ·) ((matchedIdxsInt pred xs).map (· + 1)) :=
        List.Pairwise.map _ (fun a b h => by omega) ih
      by_cases hp : pred x
      · rw [matchedIdxsInt, if_pos hp]
        refine List.pairwise_cons.mpr ⟨?_, hmap⟩
        intro y hy
        rcases List.mem_map.mp hy with ⟨j, hj, rfl⟩
        have := matchedIdxsInt_nonneg pred xs j hj
        omega
      · rw [matchedIdxsInt, if_neg hp]
        exact hmap

theorem length_insertDesc (x : Int) (l : List Int) :
    (insertDesc x l).length = l.length + 1 := by
  induction l with
  | nil => rfl
  | cons y ys ih =>
      rw [insertDesc]
      split_ifs
      · rfl
      · simp [ih]

theorem length_sortDesc (l : List Int) : (sortDesc l).length = l.length := by
  induction l with
  | nil => rfl
  | cons x xs ih =>
      show (insertDesc x (sortDesc xs)).length = xs.length + 1
      rw [length_insertDesc, ih]

theorem insertDesc_of_lt_all (x : Int) (l : List Int) (h : ∀ y ∈ l, x < y) :
    insertDesc x l = l ++ [x] := by
  induction l with
  | nil => rfl
  | cons y ys ih =>
      rw [insertDesc, if_neg (by have := h y (List.mem_cons_self y ys); omega)]
      rw [ih (fun z hz => h z (List.mem_cons_of_mem _ hz))]
      rfl

/-- A descending sort of a strictly ascending list is its reversal. -/
theorem sortDesc_of_sorted_lt (l : List Int) (h : List.Pairwise (· < ·) l) :
    sortDesc l = l.reverse := by
  induction l with
  | nil => rfl
  | cons x xs ih =>
      have hx := (List.pairwise_cons.mp h).1
      show insertDesc x (sortDesc xs) = (x :: xs).reverse
      rw [ih (List.pairwise_cons.mp h).2,
        insertDesc_of_lt_all x xs.reverse (fun y hy => hx y (List.mem_reverse.mp hy))]
      simp

theorem spliceRemoveOne_cons_succ (x : α) (l : List α) (m : Int) (hm : 0 ≤ m) :
    spliceRemoveOne (x :: l) (m + 1) = x :: spliceRemoveOne l m := by
  unfold spliceRemoveOne
  rw [if_neg (by omega), if_neg (by omega)]
  have h1 : (m + 1).toNat = m.toNat + 1 := by omega
  rw [h1, List.eraseIdx_cons_succ]

theorem spliceRemoveOne_cons_zero (x : α) (l : List α) :
    spliceRemoveOne (x :: l) 0 = l := by
  unfold spliceRemoveOne
  rw [if_neg (by omega)]
  exact List.eraseIdx_cons_zero

/-- Splicing shifted-by-one indices over a list with one more head leaves
the head alone. -/
theorem foldr_splice_shift (x : JSObj) (xs : List JSObj) (ms : List Int)
    (hms : ∀ i ∈ ms, 0 ≤ i) :
    List.foldr (fun i d => if i ≠ -1 then spliceRemoveOne d i else d) (x :: xs) (ms.map (· + 1))
      = x :: List.foldr (fun i d => if i ≠ -1 then spliceRemoveOne d i else d) xs ms := by
  induction ms with
  | nil => rfl
  | cons m rest ih =>
      have hm : 0 ≤ m := hms m (List.mem_cons_self m rest)
      rw [List.map_cons, List.foldr_cons, List.foldr_cons,
        ih (fun i hi => hms i (List.mem_cons_of_mem _ hi)),
        if_pos (by omega : (m + 1 : Int) ≠ -1), if_pos (by omega : (m : Int) ≠ -1)]
      exact spliceRemoveOne_cons_succ x _ m hm

/-- Splicing the ascending matched positions from back to front removes
exactly the matched records. -/
theorem foldr_splice_matchedIdxs (pred : JSObj → Bool) (data : List JSObj) :
    List.foldr (fun i d => if i ≠ -1 then spliceRemoveOne d i else d) data
        (matchedIdxsInt pred data)
      = data.filter (fun r => !(pred r)) := by
  induction data with
  | nil => rfl
  | cons x xs ih =>
      by_cases hp : pred x
      · rw [matchedIdxsInt, if_pos hp, List.foldr_cons,
          foldr_splice_shift x xs _ (matchedIdxsInt_nonneg pred xs), ih,
          if_pos (by omega : (0 : Int) ≠ -1), spliceRemoveOne_cons_zero,
          List.filter_cons, if_neg (by simp [hp])]
      · rw [matchedIdxsInt, if_neg hp,
          foldr_splice_shift x xs _ (matchedIdxsInt_nonneg pred xs), ih,
          List.filter_cons, if_pos (by simp [hp])]

/-- With the head strictly unequal to the probe and the probe present in
the tail (strict-self-equal), a primary-key lookup shifts by one. -/
theorem findRowIndex_cons_shift (pk : String) (x : JSObj) (xs : List JSObj) (item : JSObj)
    (hmem : item ∈ xs)
    (hself : jsStrictEq (getKey item pk) (getKey item pk) = true)
    (hx : jsStrictEq (getKey x pk) (getKey item pk) = false) :
    findRowIndex pk (x :: xs) (getKey item pk) = findRowIndex pk xs (getKey item pk) + 1 := by
  unfold findRowIndex
  rw [List.findIdx?_cons, if_neg (by simp [hx]), List.findIdx?_succ]
  cases hfi : List.findIdx? (fun it => jsStrictEq (getKey it pk) (getKey item pk)) xs with
  | none =>
      exfalso
      have hsome : (List.findIdx? (fun it => jsStrictEq (getKey it pk) (getKey item pk)) xs).isSome
          = true := by
        rw [List.findIdx?_isSome]
        exact List.any_eq_true.mpr ⟨item, hmem, hself⟩
      rw [hfi] at hsome
      cases hsome
  | some j =>
      simp only [Option.map_some']
      push_cast
      ring

/-- The head's own primary-key lookup is position 0. -/
theorem findRowIndex_cons_self (pk : String) (x : JSObj) (xs : List JSObj)
    (hself : jsStrictEq (getKey x pk) (getKey x pk) = true) :
    findRowIndex pk (x :: xs) (getKey x pk) = 0 := by
  unfold findRowIndex
  rw [List.findIdx?_cons, if_pos (by simp [hself])]
  rfl

/-- Under distinct, self-equal primary keys, the primary-key lookups of
the matched records are exactly their ascending positions. -/
theorem indices_eq_matched (pk : String) (data : List JSObj) (pred : JSObj → Bool)
    (hd : pkDistinct pk data) (hs : pkSelfEq pk data) :
    (data.filter pred).map (fun item => findRowIndex pk data (getKey item pk))
      = matchedIdxsInt pred data := by
  induction data with
  | nil => rfl
  | cons x xs ih =>
      have hdc := List.pairwise_cons.mp hd
      have hs' : pkSelfEq pk xs := fun r hr => hs r (List.mem_cons_of_mem _ hr)
      have htail : (xs.filter pred).map (fun item => findRowIndex pk (x :: xs) (getKey item pk))
          = (matchedIdxsInt pred xs).map (· + 1) := by
        have hcongr : (xs.filter pred).map (fun item => findRowIndex pk (x :: xs) (getKey item pk))
            = (xs.filter pred).map (fun item => findRowIndex pk xs (getKey item pk) + 1) := by
          apply List.map_congr_left
          intro item hitem
          have hmem := List.mem_of_mem_filter hitem
          exact findRowIndex_cons_shift pk x xs item hmem (hs' item hmem) (hdc.1 item hmem)
        rw [hcongr, ← ih hdc.2 hs', List.map_map]
        rfl
      by_cases hp : pred x
      · rw [List.filter_cons, if_pos (by simp [hp]), List.map_cons,
          findRowIndex_cons_self pk x xs (hs x (List.mem_cons_self x xs)),
          matchedIdxsInt, if_pos hp, htail]
      · rw [List.filter_cons, if_neg (by simp [hp]), matchedIdxsInt, if_neg hp, htail]

/-- `deleteMany` with the primary key rewritten in. -/
theorem tmDeleteMany_eq (s : TableState) (w : Option WhereObj) (pk : String)
    (hpk : s.primaryKey = some pk) :
    tmDeleteMany s w =
      (let toDelete := match w with
        | none => s.data
        | some wo => s.data.filter (fun item => matchesWhere item wo)
       let indices := sortDesc (toDelete.map (fun item => findRowIndex pk s.data (getKey item pk)))
       (indices.length,
        { s with data :=
            indices.foldl (fun d i => if i ≠ -1 then spliceRemoveOne d i else d) s.data })) := by
  unfold tmDeleteMany
  rw [hpk]
  rfl

/-- Core of claim C9, stated over an arbitrary match predicate. -/
theorem deleteMany_generic (data : List JSObj) (pred : JSObj → Bool) (pk : String)
    (hd : pkDistinct pk data) (hs : pkSelfEq pk data) :
    (sortDesc ((data.filter pred).map (fun item => findRowIndex pk data (getKey item pk)))).length
      = (data.filter pred).length
    ∧ (sortDesc ((data.filter pred).map
          (fun item => findRowIndex pk data (getKey item pk)))).foldl
        (fun d i => if i ≠ -1 then spliceRemoveOne d i else d) data
      = data.filter (fun r => !(pred r)) := by
  constructor
  · rw [length_sortDesc, List.length_map]
  · rw [indices_eq_matched pk data pred hd hs,
      sortDesc_of_sorted_lt _ (matchedIdxsInt_sorted pred data),
      List.foldl_reverse]
    exact foldr_splice_matchedIdxs pred data

/-- C9, counterexample.  The claim quantifies over every cache state, but
`deleteMany` locates each matched record by a primary-key `findIndex`
over the cache; with two records sharing the primary-key value 1 and a
condition matching only the SECOND, the lookup resolves to the first, and
the call deletes the non-matching record: the remaining cache is the
matching record, not the non-matching one the claim promises. -/
theorem c9_counterexample :
    (tmDeleteMany
        ⟨[], [], [[("id", vnum 1), ("act", vbool true)], [("id", vnum 1), ("act", vbool false)]],
          some "id"⟩
        (some [("act", .lit (vbool false))])).2.data
      = [[("id", vnum 1), ("act", vbool false)]]
    ∧ ([[("id", vnum 1), ("act", vbool false)]] : List JSObj)
        ≠ [[("id", vnum 1), ("act", vbool true)]]
    ∧ matchesWhere [("id", vnum 1), ("act", vbool false)] [("act", .lit (vbool false))] = true := by
  refine ⟨rfl, by decide, by decide⟩

/-- C9 (corrected): provided every cached record's primary-key value is a
self-strict-equal primitive and the values are pairwise strictly
distinct (the uniqueness the rest of the model maintains), `deleteMany`
removes exactly the records matching the optional condition (all records
when it is absent), returns their count, and leaves the remaining cache
equal to the non-matching records in their original order — the
descending-positional-order removal is what keeps the precomputed indices
valid; with duplicated primary-key values the lookup can instead delete a
non-matching record. -/
theorem c9_amended_delete_many (s : TableState) (w : Option WhereObj) (pk : String)
    (hpk : s.primaryKey = some pk) (hd : pkDistinct pk s.data) (hs : pkSelfEq pk s.data) :
    (tmDeleteMany s w).1 = (s.data.filter (fun r => matchesOpt w r)).length
    ∧ (tmDeleteMany s w).2.data = s.data.filter (fun r => !(matchesOpt w r)) := by
  rw [tmDeleteMany_eq s w pk hpk]
  have htd : (match w with
      | none => s.data
      | some wo => s.data.filter (fun item => matchesWhere item wo))
      = s.data.filter (fun r => matchesOpt w r) := by
    cases w with
    | none => simp [matchesOpt]
    | some wo => rfl
  dsimp only
  rw [htd]
  exact deleteMany_generic s.data (fun r => matchesOpt w r) pk hd hs

/-- C9 witness (the spec's Scenario D): deleting `{isActive: false}` over
`[{id:1,act:true},{id:2,act:false},{id:3,act:false}]` returns count 2 and
leaves exactly `[{id:1,act:true}]`. -/
theorem c9_amended_delete_many_w :
    (tmDeleteMany
        ⟨[], [],
          [[("id", vnum 1), ("act", vbool true)], [("id", vnum 2), ("act", vbool false)],
            [("id", vnum 3), ("act", vbool false)]],
          some "id"⟩
        (some [("act", .lit (vbool false))])).1 = 2
    ∧ (tmDeleteMany
        ⟨[], [],
          [[("id", vnum 1), ("act", vbool true)], [("id", vnum 2), ("act", vbool false)],
            [("id", vnum 3), ("act", vbool false)]],
          some "id"⟩
        (some [("act", .lit (vbool false))])).2.data
      = [[("id", vnum 1), ("act", vbool true)]] := by
  have h := c9_amended_delete_many
    ⟨[], [],
      [[("id", vnum 1), ("act", vbool true)], [("id", vnum 2), ("act", vbool false)],
        [("id", vnum 3), ("act", vbool false)]],
      some "id"⟩
    (some [("act", .lit (vbool false))]) "id" rfl
    (by unfold pkDistinct; decide) (by unfold pkSelfEq; decide)
  refine ⟨?_, ?_⟩
  · rw [h.1]
    rfl
  · rw [h.2]
    rfl

/-!
## Round-trip machinery (claim C8)
-/

/-- Two raw rows that parse identically at every header position a schema
field resolves to produce the same record. -/
theorem mapRowToObject_fold_congr (schema : Schema) (headers : List String)
    (row row' : List Value) (acc : JSObj)
    (h : ∀ f c, (f, c) ∈ schema → ∀ i,
        headers.findIdx? (fun x => x == c.column) = some i →
        (match c.parser with
         | some pf => pf (row.getD i vundef)
         | none => row.getD i vundef)
        = (match c.parser with
           | some pf => pf (row'.getD i vundef)
           | none => row'.getD i vundef)) :
    schema.foldl (mapRowToObjectStep headers row) acc
      = schema.foldl (mapRowToObjectStep headers row') acc := by
  induction schema generalizing acc with
  | nil => rfl
  | cons p rest ih =>
      rw [List.foldl_cons, List.foldl_cons]
      have hstep : mapRowToObjectStep headers row acc p = mapRowToObjectStep headers row' acc p := by
        obtain ⟨f, c⟩ := p
        cases hi : headers.findIdx? (fun x => x == c.column) with
        | none => simp [mapRowToObjectStep, hi]
        | some i =>
            have hv := h f c (List.mem_cons_self _ _) i hi
            simp only [mapRowToObjectStep, hi]
            rw [hv]
      rw [hstep]
      exact ih _ (fun f c hm i hi => h f c (List.mem_cons_of_mem _ hm) i hi)

/-- With pairwise-distinct column labels, the serialize-side field lookup
for a label resolves to the (unique) schema entry carrying it. -/
theorem find?_label_unique (schema : Schema) (f : String) (c : ColumnDef)
    (hmem : (f, c) ∈ schema)
    (hlabels : (schema.map (fun p => p.2.column)).Nodup) :
    schema.find? (fun p => p.2.column == c.column) = some (f, c) := by
  induction schema with
  | nil => cases hmem
  | cons q rest ih =>
      rw [List.map_cons, List.nodup_cons] at hlabels
      rcases List.mem_cons.mp hmem with heq | hmem2
      · subst heq
        exact List.find?_cons_of_pos rest (by simp)
      · have hq : q.2.column ≠ c.column := by
          intro e
          exact hlabels.1 (e ▸ List.mem_map_of_mem (fun p => p.2.column) hmem2)
        rw [List.find?_cons_of_neg rest (by simp [hq])]
        exact ih hmem2 hlabels.2

/-- C8, counterexample.  With a single column carrying a custom pair
(parser adds one, serializer passes through — a legal "custom
parser/serializer pair" that is not inverse), the record parsed from the
raw cell 5 is `{f: 6}`, but serializing and re-parsing yields `{f: 7}`:
the round-trip does not return an equal record. -/
theorem c8_counterexample :
    mapRowToObject
        [("f", { column := "A", parser := some (fun v => vnum (valueOfNum v + 1)),
                 serializer := some (fun v => v) })] ["A"]
        (mapObjectToRow
          [("f", { column := "A", parser := some (fun v => vnum (valueOfNum v + 1)),
                   serializer := some (fun v => v) })] ["A"]
          (mapRowToObject
            [("f", { column := "A", parser := some (fun v => vnum (valueOfNum v + 1)),
                     serializer := some (fun v => v) })] ["A"] [vnum 5]))
      = [("f", vnum 7)]
    ∧ mapRowToObject
        [("f", { column := "A", parser := some (fun v => vnum (valueOfNum v + 1)),
                 serializer := some (fun v => v) })] ["A"] [vnum 5]
      = [("f", vnum 6)]
    ∧ ([("f", vnum 7)] : JSObj) ≠ [("f", vnum 6)] :=
  ⟨rfl, rfl, by decide⟩

/-- C8 (corrected): the round-trip `rowToRecord ∘ recordToRow ∘
rowToRecord = rowToRecord` holds on a schema with pairwise-distinct field
names and column labels whose every field carries either a mutually
inverse parser/serializer pair (`parser (serializer v) = v`) or no
transform at all; an arbitrary custom parser/serializer pair (or a parser
without its inverse serializer) breaks it. -/
theorem c8_amended_round_trip (schema : Schema) (headers : List String) (row : List Value)
    (hfields : (schema.map Prod.fst).Nodup)
    (hlabels : (schema.map (fun p => p.2.column)).Nodup)
    (hinv : ∀ f c, (f, c) ∈ schema →
        (∃ pf sf, c.parser = some pf ∧ c.serializer = some sf ∧ ∀ v, pf (sf v) = v)
        ∨ (c.parser = none ∧ c.serializer = none)) :
    mapRowToObject schema headers
        (mapObjectToRow schema headers (mapRowToObject schema headers row))
      = mapRowToObject schema headers row := by
  apply mapRowToObject_fold_congr
  intro f c hmem i hi
  rcases List.findIdx?_eq_some_iff_getElem.mp hi with ⟨hilen, hpi, -⟩
  have hcol : headers[i] = c.column := eq_of_beq hpi
  have hrow2 : (mapObjectToRow schema headers (mapRowToObject schema headers row)).getD i vundef
      = (match c.serializer with
         | some sf => sf (getKey (mapRowToObject schema headers row) f)
         | none => getKey (mapRowToObject schema headers row) f) := by
    unfold mapObjectToRow
    rw [List.getD_eq_getElem?_getD, List.getElem?_map, List.getElem?_eq_getElem hilen,
      Option.map_some', Option.getD_some, hcol, find?_label_unique schema f c hmem hlabels]
  have hrec := mapRowToObject_getKey schema headers row f c hmem hfields i hi
  rcases hinv f c hmem with ⟨pf, sf, hpf, hsf, hps⟩ | ⟨hpf, hsf⟩
  · rw [hpf, hrow2, hsf, hrec, hpf]
    dsimp only
    rw [hps]
  · rw [hpf, hrow2, hsf, hrec, hpf]

/-- C8 witness: with the mutually inverse pair (parse: add one to a
number, serialize: subtract one), the round-trip over the raw cell 5
returns the parsed record unchanged. -/
theorem c8_amended_round_trip_w :
    mapRowToObject
        [("f", { column := "A",
                 parser := some (fun v => match v with | vnum n => vnum (n + 1) | w => w),
                 serializer := some (fun v => match v with | vnum n => vnum (n - 1) | w => w) })]
        ["A"]
        (mapObjectToRow
          [("f", { column := "A",
                   parser := some (fun v => match v with | vnum n => vnum (n + 1) | w => w),
                   serializer := some (fun v => match v with | vnum n => vnum (n - 1) | w => w) })]
          ["A"]
          (mapRowToObject
            [("f", { column := "A",
                     parser := some (fun v => match v with | vnum n => vnum (n + 1) | w => w),
                     serializer := some (fun v => match v with | vnum n => vnum (n - 1) | w => w) })]
            ["A"] [vnum 5]))
      = mapRowToObject
          [("f", { column := "A",
                   parser := some (fun v => match v with | vnum n => vnum (n + 1) | w => w),
                   serializer := some (fun v => match v with | vnum n => vnum (n - 1) | w => w) })]
          ["A"] [vnum 5] :=
  c8_amended_round_trip _ ["A"] [vnum 5] (by simp) (by simp)
    (fun f c hmem => by
      have h := List.mem_singleton.mp hmem
      injection h with h1 h2
      subst h2
      exact Or.inl ⟨_, _, rfl, rfl, fun v => by cases v <;> simp⟩)

/-!
## Reference model of the read path (claim C5)

JavaScript records and arrays are heap objects; whether a read operation
returns a copy or a live reference is an aliasing question, so the read
path is modelled over an explicit heap: `Heap.recs` holds record objects
addressed by position, `Heap.arrs` holds array objects (lists of record
addresses).  A caller mutating a returned value is a heap write through
the returned reference.
-/

structure Heap where
  recs : List JSObj
  arrs : List (List Nat)

/-- A client/table-model state: the heap plus the address of the
`this.data` cache array. -/
structure MState where
  heap : Heap
  dataArr : Nat

/-- The record addresses an array object holds. -/
def arrContents (s : MState) (a : Nat) : List Nat :=
  s.heap.arrs.getD a []

/-- The record values observable through the cache array. -/
def cacheRecords (s : MState) : List JSObj :=
  (arrContents s s.dataArr).map (fun a => s.heap.recs.getD a [])

/-- Allocate a fresh array object holding the given record addresses. -/
def allocArr (s : MState) (contents : List Nat) : Nat × MState :=
  (s.heap.arrs.length, { s with heap := { s.heap with arrs := s.heap.arrs ++ [contents] } })

/-- `SpreadsheetClient.list` (client.ts lines 190-192): `[...this.data]` —
a NEW array object holding the SAME record references. -/
def listOp (s : MState) : Nat × MState :=
  allocArr s (arrContents s s.dataArr)

/-- `SpreadsheetClient.get` (client.ts lines 199-205), likewise
`SpreadSheetMapper.get`: `this.data.find(...)` returns the cached record
object itself — a live reference — or null. -/
def getByIdOp (s : MState) (pk : String) (idv : Value) : Option Nat :=
  (arrContents s s.dataArr).find?
    (fun a => jsStrictEq (getKey (s.heap.recs.getD a []) pk) idv)

/-- `TableModel.findMany` called with no arguments (table-model.ts lines
103-124): `let result = this.data` and none of the three `if` branches
fires, so the cache array ITSELF is returned. -/
def findManyNoArgs (s : MState) : Nat := s.dataArr

/-- A caller mutating one field of a returned record (a heap write through
the record reference). -/
def writeRecField (s : MState) (a : Nat) (k : String) (v : Value) : MState :=
  { s with heap :=
      { s.heap with recs := s.heap.recs.set a (setKey (s.heap.recs.getD a []) k v) } }

/-- A caller pushing an element onto a returned array (a heap write
through the array reference). -/
def pushToArr (s : MState) (a : Nat) (r : Nat) : MState :=
  { s with heap :=
      { s.heap with arrs := s.heap.arrs.set a (s.heap.arrs.getD a [] ++ [r]) } }

/-- C5, counterexample.  The claim says every read returns a defensive
copy, so mutating a returned value never changes the cache.  On the
one-record state below: `get(1)` returns a reference to the cached record
itself, and writing a field through it changes the record the cache
shows; `findMany()` with no arguments returns the live cache array, and
pushing onto it grows the cache. -/
theorem c5_counterexample :
    getByIdOp ⟨⟨[[("id", vnum 1)]], [[0]]⟩, 0⟩ "id" (vnum 1) = some 0
    ∧ cacheRecords (writeRecField ⟨⟨[[("id", vnum 1)]], [[0]]⟩, 0⟩ 0 "id" (vnum 99))
        ≠ cacheRecords ⟨⟨[[("id", vnum 1)]], [[0]]⟩, 0⟩
    ∧ findManyNoArgs ⟨⟨[[("id", vnum 1)]], [[0]]⟩, 0⟩
        = MState.dataArr ⟨⟨[[("id", vnum 1)]], [[0]]⟩, 0⟩
    ∧ cacheRecords (pushToArr ⟨⟨[[("id", vnum 1)]], [[0]]⟩, 0⟩
          (findManyNoArgs ⟨⟨[[("id", vnum 1)]], [[0]]⟩, 0⟩) 0)
        ≠ cacheRecords ⟨⟨[[("id", vnum 1)]], [[0]]⟩, 0⟩ := by
  refine ⟨rfl, by decide, rfl, by decide⟩

/-- C5 (corrected): `list()` does allocate a fresh array — pushing onto
the returned array leaves the cache unchanged — but the copy is shallow:
the returned array holds the very record references the cache holds (so a
field write through a returned record is visible in the cache, as the
counterexample shows); `get`/`find` return live record references, and
`TableModel.findMany` with no arguments returns the live cache array
itself, not a copy. -/
theorem c5_amended_shallow_reads (s : MState) (h : s.dataArr < s.heap.arrs.length) :
    (listOp s).1 ≠ s.dataArr
    ∧ arrContents (listOp s).2 (listOp s).1 = arrContents s s.dataArr
    ∧ (∀ r, cacheRecords (pushToArr (listOp s).2 (listOp s).1 r) = cacheRecords s)
    ∧ findManyNoArgs s = s.dataArr := by
  refine ⟨?_, ?_, ?_, rfl⟩
  · show s.heap.arrs.length ≠ s.dataArr
    omega
  · show (s.heap.arrs ++ [arrContents s s.dataArr]).getD s.heap.arrs.length [] = _
    rw [List.getD_eq_getElem?_getD, List.getElem?_concat_length]
    rfl
  · intro r
    unfold cacheRecords arrContents pushToArr listOp allocArr
    dsimp only
    rw [List.getD_eq_getElem?_getD, List.getElem?_set_ne (by omega),
      List.getElem?_append_left h, ← List.getD_eq_getElem?_getD]

/-- C5 witness: on the concrete one-record state, `list()` returns a
fresh array whose contents alias the cache. -/
theorem c5_amended_shallow_reads_w :
    (listOp ⟨⟨[[("id", vnum 1)]], [[0]]⟩, 0⟩).1 ≠ 0
    ∧ arrContents (listOp ⟨⟨[[("id", vnum 1)]], [[0]]⟩, 0⟩).2
        (listOp ⟨⟨[[("id", vnum 1)]], [[0]]⟩, 0⟩).1 = [0] :=
  ⟨(c5_amended_shallow_reads ⟨⟨[[("id", vnum 1)]], [[0]]⟩, 0⟩ (by decide)).1,
   (c5_amended_shallow_reads ⟨⟨[[("id", vnum 1)]], [[0]]⟩, 0⟩ (by decide)).2.1⟩
